import Mathlib

/-!
Verification of the go-taskflow workflow engine (BaseMax/go-taskflow).

Shallow embedding of `pkg/types/types.go`, `pkg/executor/executor.go` and
`pkg/workflow/engine.go`.  Side-effecting backends (shell, HTTP, file) are
modelled by an abstract function from task and attempt index to the pair of
output text and optional error, exactly the data the engine observes from
`Executor.executeShell` / `executeHTTP` / `executeFile`.  Go maps are
modelled as association lists (Go map iteration order is unspecified; the
list order fixes one admissible order).  Go string primitives
(`strings.ReplaceAll`, `strings.Split`, `strings.Trim`, `strings.TrimSpace`)
are re-implemented on character lists with structural (fuel) recursion so
that everything reduces inside the kernel; the fuel bounds are sufficient
for all inputs, as argued at each definition.
-/

namespace TaskFlow

/-- Character predicate of Go `unicode.IsSpace` restricted to the Latin-1
range: space, tab, newline, vertical tab, form feed, carriage return,
NEL (U+0085) and NBSP (U+00A0).  (The full Unicode space category is not
needed for any string this development evaluates.) -/
def isGoSpace (c : Char) : Bool :=
  c == Char.ofNat 32 || c == Char.ofNat 9 || c == Char.ofNat 10 ||
  c == Char.ofNat 11 || c == Char.ofNat 12 || c == Char.ofNat 13 ||
  c == Char.ofNat 133 || c == Char.ofNat 160

/-- The cutset `"\"'"` of `strings.Trim` in `Engine.evaluateCondition`:
double quote (34) or single quote (39). -/
def isQuoteChar (c : Char) : Bool :=
  c == Char.ofNat 34 || c == Char.ofNat 39

/-- Drop leading and trailing characters satisfying `p` (Go `strings.Trim`
specialised to a predicate cutset). -/
def trimListBy (p : Char → Bool) (s : List Char) : List Char :=
  ((s.dropWhile p).reverse.dropWhile p).reverse

/-- Go `strings.TrimSpace`. -/
def goTrimSpace (s : String) : String :=
  String.mk (trimListBy isGoSpace s.data)

/-- Go `strings.Trim(s, "\"'")`. -/
def goTrimQuotes (s : String) : String :=
  String.mk (trimListBy isQuoteChar s.data)

/-- Substring occurrence test on character lists: true iff `pat` occurs as a
contiguous sublist of `s` (Go `strings.Contains` modulo encoding). -/
def containsSub (pat : List Char) : List Char → Bool
  | [] => pat.isEmpty
  | c :: rest => pat.isPrefixOf (c :: rest) || containsSub pat rest

/-- Replace all leftmost non-overlapping occurrences of `pat` by `rep`,
the semantics of Go `strings.ReplaceAll` for a non-empty pattern.  Fuel
recursion: every step consumes at least one character of `s` and one unit
of fuel, so fuel `s.length` always suffices (when fuel reaches 0 the
remaining suffix is empty).  An empty `pat` replaces nothing here; the
engine only ever passes patterns of length at least 3. -/
def replaceAllFuel (pat rep : List Char) : Nat → List Char → List Char
  | 0, s => s
  | _ + 1, [] => []
  | fuel + 1, c :: rest =>
    if pat ≠ [] ∧ pat.isPrefixOf (c :: rest) then
      rep ++ replaceAllFuel pat rep fuel ((c :: rest).drop pat.length)
    else
      c :: replaceAllFuel pat rep fuel rest

/-- Go `strings.ReplaceAll` on strings (non-empty pattern). -/
def goReplaceAll (s pat rep : String) : String :=
  String.mk (replaceAllFuel pat.data rep.data s.data.length s.data)

/-- Split on every non-overlapping occurrence of `sep`, the semantics of Go
`strings.Split` for a non-empty separator.  `acc` holds the reversed
current chunk.  Fuel `s.length + 1` suffices: each step consumes at least
one character or terminates. -/
def splitOnFuel (sep : List Char) : Nat → List Char → List Char → List (List Char)
  | 0, acc, s => [acc.reverse ++ s]
  | _ + 1, acc, [] => [acc.reverse]
  | fuel + 1, acc, c :: rest =>
    if sep ≠ [] ∧ sep.isPrefixOf (c :: rest) then
      acc.reverse :: splitOnFuel sep fuel [] ((c :: rest).drop sep.length)
    else
      splitOnFuel sep fuel (c :: acc) rest

/-- Go `strings.Split` on strings (non-empty separator; the engine only
splits on `==` and `!=`). -/
def goSplit (s sep : String) : List String :=
  (splitOnFuel sep.data (s.data.length + 1) [] s.data).map String.mk

/-- TaskResult of pkg/types: task name, success flag, error (Go `error`
modelled as `Option String`, `none` for nil), textual output.  The start
and end timestamps carry no information any claim consumes and are
omitted from the embedding. -/
structure TaskResult where
  taskName : String
  success : Bool
  error : Option String
  output : String
deriving Repr, DecidableEq

/-- RetryConfig of pkg/types: `MaxAttempts int` and `Delay time.Duration`
(an int64 nanosecond count). -/
structure RetryConfig where
  maxAttempts : Int
  delay : Int
deriving Repr, DecidableEq

/-- Task of pkg/types, restricted to the fields the engine and the shell
dispatch path consume.  HTTP/file-specific payload fields are part of the
opaque backend input and are not read by the engine itself. -/
structure Task where
  name : String
  type : String
  command : String
  script : String
  dependsOn : List String
  condition : String
  retry : RetryConfig
  continueOnError : Bool
  parallel : Bool
deriving Repr, DecidableEq

/-- Task with all fields at their Go zero values. -/
def defaultTask : Task :=
  { name := "", type := "", command := "", script := "", dependsOn := []
    condition := "", retry := { maxAttempts := 0, delay := 0 }
    continueOnError := false, parallel := false }

/-- Workflow of pkg/types.  `vars` is the Go `map[string]string` as an
association list. -/
structure Workflow where
  name : String
  description : String
  vars : List (String × String)
  tasks : List Task
deriving Repr, DecidableEq

/-- Abstract model of the side-effecting type-specific executors
(`executeShell` / `executeHTTP` / `executeFile`): for a task and a
zero-based attempt index, the output text and optional error the call
produces.  Indexing by attempt lets one deterministic function describe a
backend whose outcome changes between retry attempts. -/
def Backend := Task → Nat → String × Option String

/-- Executor.replaceVariables (pkg/executor): fold over the workflow
vars replacing every occurrence of the dollar-brace pattern for each
key.  Note it consults only the workflow vars; the executor has no
access to task results. -/
def Executor.replaceVariables (vars : List (String × String)) (input : String) : String :=
  vars.foldl (fun result kv => goReplaceAll result ("$\x7b" ++ kv.1 ++ "\x7d") kv.2) input

/-- The command string `Executor.executeShell` hands to the shell: the
script overrides the command when non-empty, then executor-level variable
replacement is applied. -/
def Executor.shellCommand (vars : List (String × String)) (task : Task) : String :=
  let command := if task.script ≠ "" then task.script else task.command
  Executor.replaceVariables vars command

/-- Executor.Execute (pkg/executor): dispatch on the task type, then build
the TaskResult with `Success = (err == nil)` and `Error = err`.  The three
known types consult the abstract backend; any other type yields the
unknown-task-type error with empty output. -/
def Executor.Execute (bk : Backend) (task : Task) (attempt : Nat) : TaskResult :=
  let pair :=
    match task.type with
    | "shell" => bk task attempt
    | "http" => bk task attempt
    | "file" => bk task attempt
    | other => ("", some ("unknown task type: " ++ other))
  { taskName := task.name
    success := pair.2.isNone
    error := pair.2
    output := pair.1 }

/-- Engine.replaceVariables (pkg/workflow): first replace every workflow
variable pattern, then for every task recorded as successful replace the
task-output pattern by the recorded output. -/
def Engine.replaceVariables (vars : List (String × String))
    (store : List (String × TaskResult)) (input : String) : String :=
  let result := vars.foldl
    (fun acc kv => goReplaceAll acc ("$\x7b" ++ kv.1 ++ "\x7d") kv.2) input
  store.foldl
    (fun acc kv =>
      if kv.2.success then
        goReplaceAll acc ("$\x7b" ++ kv.1 ++ ".output\x7d") kv.2.output
      else acc)
    result

/-- Engine.evaluateCondition (pkg/workflow): resolve vars, then if the
text splits on `==` into exactly two parts compare them for equality
(left whitespace-trimmed; right quote-trimmed then whitespace-trimmed),
else same for `!=` with inequality, else truthiness.  When the text
contains an operator more than once the split has three or more parts and
that operator branch does not fire, exactly as in the Go source. -/
def Engine.evaluateCondition (vars : List (String × String))
    (store : List (String × TaskResult)) (condition : String) : Bool :=
  let c := Engine.replaceVariables vars store condition
  match goSplit c "==" with
  | [l, r] => goTrimSpace l == goTrimSpace (goTrimQuotes r)
  | _ =>
    match goSplit c "!=" with
    | [l, r] => goTrimSpace l != goTrimSpace (goTrimQuotes r)
    | _ => c != "" && c != "false" && c != "0"

/-- Engine.dependenciesMet (pkg/workflow): every dependency name must be in
the executed set, and if the store holds a result for it that result must
be successful. -/
def Engine.dependenciesMet (store : List (String × TaskResult))
    (task : Task) (executed : List String) : Bool :=
  task.dependsOn.all fun dep =>
    executed.contains dep &&
      match List.lookup dep store with
      | some result => result.success
      | none => true

/-- The effective attempt bound of Engine.executeTask: `task.Retry.MaxAttempts`
when positive, else the default 1. -/
def Engine.maxAttemptsOf (task : Task) : Nat :=
  if 0 < task.retry.maxAttempts then task.retry.maxAttempts.toNat else 1

/-- The effective inter-attempt delay of Engine.executeTask: the configured
delay when a retry policy is set, else 0. -/
def Engine.delayOf (task : Task) : Int :=
  if 0 < task.retry.maxAttempts then task.retry.delay else 0

/-- Observable events of one task execution: a sleep of a given delay, or a
backend invocation for a given attempt index. -/
inductive RunEvent where
  | sleep (delay : Int)
  | attempt (index : Nat)
deriving Repr, DecidableEq

/-- Run-level errors of Engine.Run: the circular/missing-dependency error
carrying the unexecuted task names, or the sequential task failure carrying
the task name and its error. -/
inductive RunError where
  | deadlock (stuck : List String)
  | taskFailed (name : String) (err : Option String)
deriving Repr, DecidableEq

/-- The retry loop of Engine.executeTask.  `attempt` is the current
zero-based index, `remaining` the number of further attempts allowed after
this one (so the loop body runs `remaining + 1` more times at most).  Each
iteration sleeps the delay before every attempt after the first, invokes
the executor, and stops when the returned error is nil.  Returns the final
result together with the trace of sleeps and attempts. -/
def Engine.retryLoop (bk : Backend) (task : Task) (delay : Int) (attempt : Nat) :
    Nat → TaskResult × List RunEvent
  | 0 =>
    let pre := if 0 < attempt ∧ 0 < delay then [RunEvent.sleep delay] else []
    (Executor.Execute bk task attempt, pre ++ [RunEvent.attempt attempt])
  | remaining + 1 =>
    let pre := if 0 < attempt ∧ 0 < delay then [RunEvent.sleep delay] else []
    let r := Executor.Execute bk task attempt
    if r.error.isNone then (r, pre ++ [RunEvent.attempt attempt])
    else
      let rest := Engine.retryLoop bk task delay (attempt + 1) remaining
      (rest.1, pre ++ [RunEvent.attempt attempt] ++ rest.2)

/-- Engine.executeTask (pkg/workflow) with its event trace: if the task has
a non-empty condition that evaluates false, return the skip result at once
(no backend events); otherwise run the retry loop. -/
def Engine.executeTaskT (vars : List (String × String))
    (store : List (String × TaskResult)) (bk : Backend) (task : Task) :
    TaskResult × List RunEvent :=
  if task.condition ≠ "" ∧ Engine.evaluateCondition vars store task.condition = false then
    ({ taskName := task.name, success := true, error := none
       output := "Skipped due to condition" }, [])
  else
    Engine.retryLoop bk task (Engine.delayOf task) 0 (Engine.maxAttemptsOf task - 1)

/-- Engine.executeTask, result only. -/
def Engine.executeTask (vars : List (String × String))
    (store : List (String × TaskResult)) (bk : Backend) (task : Task) : TaskResult :=
  (Engine.executeTaskT vars store bk task).1

/-- Engine.storeResult: Go map assignment `results[r.TaskName] = r` on the
association list (update in place, or append when absent). -/
def storeResult (store : List (String × TaskResult)) (r : TaskResult) :
    List (String × TaskResult) :=
  match store with
  | [] => [(r.taskName, r)]
  | kv :: rest =>
    if kv.1 = r.taskName then (r.taskName, r) :: rest else kv :: storeResult rest r

/-- Go map assignment `executed[name] = true` on the set of executed names. -/
def insertExecuted (executed : List String) (name : String) : List String :=
  if executed.contains name then executed else executed ++ [name]

/-- The mutable state of one Engine.Run call: the executed-name set, the
result store, and the ordered list of all results so far. -/
structure LoopState where
  executed : List String
  store : List (String × TaskResult)
  acc : List TaskResult
deriving Repr, DecidableEq

/-- Record one finished task (Engine.Run lines appending to allResults,
marking executed, and storing the result). -/
def recordResult (st : LoopState) (r : TaskResult) : LoopState :=
  { executed := insertExecuted st.executed r.taskName
    store := storeResult st.store r
    acc := st.acc ++ [r] }

/-- The parallel batch of one round (Engine.executeParallel plus the
recording loop in Run): every member runs against the pre-batch store
snapshot (results are only stored after the barrier), then all results are
recorded in batch order. -/
def Engine.runParallelBatch (vars : List (String × String)) (bk : Backend)
    (tasks : List Task) (st : LoopState) : LoopState :=
  (tasks.map (Engine.executeTask vars st.store bk)).foldl recordResult st

/-- The sequential group of one round (Engine.Run): run each task in order
against the current store, record it, and stop with a task-failure error
when a result is unsuccessful and the task does not continue on error. -/
def Engine.runSequential (vars : List (String × String)) (bk : Backend) :
    List Task → LoopState → LoopState × Option RunError
  | [], st => (st, none)
  | task :: rest, st =>
    let r := Engine.executeTask vars st.store bk task
    let st1 := recordResult st r
    if r.success = false ∧ task.continueOnError = false then
      (st1, some (RunError.taskFailed task.name r.error))
    else
      Engine.runSequential vars bk rest st1

/-- The ready set of one round: tasks not yet executed whose dependencies
are met. -/
def Engine.readyTasks (w : Workflow) (st : LoopState) : List Task :=
  w.tasks.filter fun task =>
    ! st.executed.contains task.name && Engine.dependenciesMet st.store task st.executed

/-- The round loop of Engine.Run.  Each productive round executes at least
one not-yet-executed name, so `w.tasks.length + 1` rounds of fuel always
reach the Go loop's own exit; the fuel-0 branch is unreachable from `Run`
and returns the accumulated results. -/
def Engine.runLoop (w : Workflow) (bk : Backend) : Nat → LoopState → List TaskResult × Option RunError
  | 0, st => (st.acc, none)
  | fuel + 1, st =>
    if st.executed.length < w.tasks.length then
      let ready := Engine.readyTasks w st
      if ready.isEmpty then
        let unexecuted := (w.tasks.filter fun t => ! st.executed.contains t.name).map Task.name
        (st.acc, some (RunError.deadlock unexecuted))
      else
        let par := ready.filter Task.parallel
        let seq := ready.filter fun t => ! t.parallel
        let st1 := Engine.runParallelBatch w.vars bk par st
        match Engine.runSequential w.vars bk seq st1 with
        | (st2, some err) => (st2.acc, some err)
        | (st2, none) => Engine.runLoop w bk fuel st2
    else (st.acc, none)

/-- Engine.Run (pkg/workflow): the round loop from the empty state. -/
def Engine.Run (w : Workflow) (bk : Backend) : List TaskResult × Option RunError :=
  Engine.runLoop w bk (w.tasks.length + 1) { executed := [], store := [], acc := [] }

/-- Backend in which every call succeeds, with an output derived from the
task name. -/
def okBackend : Backend := fun t _ => (t.name ++ "-out", none)

/-- Backend in which every call fails. -/
def failBackend : Backend := fun _ _ => ("", some "boom")

/-- Backend that fails on attempts 0 and 1 and succeeds on attempt 2. -/
def thirdTryBackend : Backend := fun _ attempt =>
  if attempt == 2 then ("third", none) else ("", some "boom")

/-- Two mutually dependent tasks: A depends on B and B depends on A. -/
def cycleWorkflow : Workflow :=
  { name := "cycle", description := "", vars := []
    tasks := [ { defaultTask with name := "A", type := "shell", dependsOn := ["B"] },
               { defaultTask with name := "B", type := "shell", dependsOn := ["A"] } ] }

/-- Task B depends on task A; B is declared first. -/
def chainTaskA : Task := { defaultTask with name := "A", type := "shell" }

/-- The dependent task of `chainWorkflow`. -/
def chainTaskB : Task := { defaultTask with name := "B", type := "shell", dependsOn := ["A"] }

/-- Workflow with the edge A before B, declared in reverse order. -/
def chainWorkflow : Workflow :=
  { name := "chain", description := "", vars := [], tasks := [chainTaskB, chainTaskA] }

/-- Two independent sequential shell tasks with no dependency edges. -/
def pairWorkflow : Workflow :=
  { name := "pair", description := "", vars := []
    tasks := [ { defaultTask with name := "T1", type := "shell" },
               { defaultTask with name := "T2", type := "shell" } ] }

/-- Shell task with a three-attempt retry policy and a positive delay. -/
def retryTask : Task :=
  { defaultTask with name := "retry", type := "shell"
                     retry := { maxAttempts := 3, delay := 5 } }

/-- Shell task whose condition is the untruthy literal 0. -/
def skippedTask : Task :=
  { defaultTask with name := "skipme", type := "shell", condition := "0" }

/-- Shell task whose command references the recorded output of a task named
build. -/
def outputRefTask : Task :=
  { defaultTask with name := "use", type := "shell"
                     command := "echo $\x7bbuild.output\x7d" }

/-- Result store holding one successful result for a task named build. -/
def buildStore : List (String × TaskResult) :=
  [("build", { taskName := "build", success := true, error := none, output := "OK" })]

/-- Sequential shell task that continues on error. -/
def contTask : Task :=
  { defaultTask with name := "K", type := "shell", continueOnError := true }

/-- The event trace of `count` consecutive backend attempts starting at
index `start`: before every attempt with positive index a sleep of the
given delay occurs when the delay is positive, mirroring the retry loop of
Engine.executeTask. -/
def eventsFrom (delay : Int) (start : Nat) : Nat → List RunEvent
  | 0 => []
  | count + 1 =>
    (if 0 < start ∧ 0 < delay then [RunEvent.sleep delay] else []) ++
      RunEvent.attempt start :: eventsFrom delay (start + 1) count

/-- Scheduling invariant of the round loop, relative to a workflow: the
executed-name set and the store keys coincide; every stored result is a
recorded result carrying its key as name; recorded result names are
distinct; recorded names are marked executed; and ahead of every recorded
result, every dependency of its task already has a successful recorded
result. -/
structure Inv (w : Workflow) (st : LoopState) : Prop where
  exec_store : ∀ n, n ∈ st.executed ↔ ∃ r, List.lookup n st.store = some r
  store_acc : ∀ n r, List.lookup n st.store = some r → r ∈ st.acc ∧ r.taskName = n
  nodupNames : (st.acc.map TaskResult.taskName).Nodup
  acc_exec : ∀ r ∈ st.acc, r.taskName ∈ st.executed
  dep_before : ∀ l1 r l2, st.acc = l1 ++ r :: l2 →
    ∀ t ∈ w.tasks, t.name = r.taskName →
      ∀ dep ∈ t.dependsOn, ∃ ra ∈ l1, ra.taskName = dep ∧ ra.success = true

/-! Helper lemmas about the string primitives and the store. -/

theorem replaceAllFuel_not_contains (pat rep : List Char) :
    ∀ fuel s, containsSub pat s = false → replaceAllFuel pat rep fuel s = s := by
  intro fuel
  induction fuel with
  | zero => intro s _; rfl
  | succ n ih =>
    intro s h
    match s with
    | [] => rfl
    | c :: rest =>
      unfold containsSub at h
      rw [Bool.or_eq_false_iff] at h
      unfold replaceAllFuel
      rw [if_neg]
      · rw [ih rest h.2]
      · intro hcon
        rw [hcon.2] at h
        exact absurd h.1 (by simp)

theorem goReplaceAll_not_contains (s pat rep : String)
    (h : containsSub pat.data s.data = false) : goReplaceAll s pat rep = s := by
  unfold goReplaceAll
  rw [replaceAllFuel_not_contains pat.data rep.data _ s.data h]

theorem goReplaceAll_empty_input (pat rep : String) : goReplaceAll "" pat rep = "" := rfl

theorem Engine.replaceVariables_empty_input (vars : List (String × String))
    (store : List (String × TaskResult)) :
    Engine.replaceVariables vars store "" = "" := by
  unfold Engine.replaceVariables
  have h1 : vars.foldl (fun acc kv => goReplaceAll acc ("$\x7b" ++ kv.1 ++ "\x7d") kv.2) "" = "" := by
    induction vars with
    | nil => rfl
    | cons kv l ih => simpa [goReplaceAll_empty_input] using ih
  rw [h1]
  induction store with
  | nil => rfl
  | cons kv l ih =>
    rw [List.foldl_cons]
    cases h : kv.2.success <;> simp only [h, if_true, if_false, Bool.false_eq_true,
      goReplaceAll_empty_input, ih]

theorem Engine.evaluateCondition_empty (vars : List (String × String))
    (store : List (String × TaskResult)) :
    Engine.evaluateCondition vars store "" = false := by
  unfold Engine.evaluateCondition
  rw [Engine.replaceVariables_empty_input]
  decide

theorem lookup_storeResult_self (store : List (String × TaskResult)) (r : TaskResult) :
    List.lookup r.taskName (storeResult store r) = some r := by
  induction store with
  | nil => simp [storeResult, List.lookup]
  | cons kv rest ih =>
    unfold storeResult
    by_cases h : kv.1 = r.taskName
    · simp [h, List.lookup]
    · simp only [if_neg h, List.lookup]
      rw [beq_eq_false_iff_ne.mpr (fun he => h he.symm), ih]

theorem lookup_storeResult_ne (store : List (String × TaskResult)) (r : TaskResult)
    (n : String) (h : n ≠ r.taskName) :
    List.lookup n (storeResult store r) = List.lookup n store := by
  induction store with
  | nil => simp [storeResult, List.lookup, beq_eq_false_iff_ne.mpr h]
  | cons kv rest ih =>
    unfold storeResult
    by_cases hk : kv.1 = r.taskName
    · simp [hk, List.lookup, beq_eq_false_iff_ne.mpr h]
    · simp only [if_neg hk, List.lookup, ih]

theorem mem_insertExecuted (ex : List String) (m n : String) :
    n ∈ insertExecuted ex m ↔ n ∈ ex ∨ n = m := by
  unfold insertExecuted
  by_cases h : ex.contains m
  · rw [if_pos h]
    constructor
    · exact Or.inl
    · rintro (hn | rfl)
      · exact hn
      · exact List.mem_of_elem_eq_true h
  · rw [if_neg h]
    simp [List.mem_append]

/-! Claim theorems. -/

/-- C4 (code bug): the spec and the source doc comment promise that the
condition dollar-brace env space == space quote prod quote, with variable
env bound to prod, evaluates true, but the code evaluates it to false: the
source trims the quote cutset before trimming whitespace, so the right
operand keeps its leading double quote.  The variant without spaces
evaluates true, isolating the trimming order as the cause. -/
theorem C4_condition_quote_bug :
    Engine.replaceVariables [("env", "prod")] [] "$\x7benv\x7d == \"prod\"" = "prod == \"prod\""
    ∧ goTrimSpace (goTrimQuotes " \"prod\"") = "\"prod"
    ∧ Engine.evaluateCondition [("env", "prod")] [] "$\x7benv\x7d == \"prod\"" = false
    ∧ Engine.evaluateCondition [("env", "prod")] [] "$\x7benv\x7d==\"prod\"" = true
    ∧ Engine.evaluateCondition [("env", "dev")] [] "$\x7benv\x7d == \"prod\"" = false := by
  refine ⟨by decide, by decide, by decide, by decide, by decide⟩

/-- C1 (counterexample): a shell command referencing the recorded output of
the prior successful task build reaches the backend verbatim; only the
engine-side resolver used for condition text would substitute it.  The
claim that the backend-consumed command has the task-output reference
replaced before the backend runs is therefore false. -/
theorem C1_counterexample :
    Executor.shellCommand [] outputRefTask = "echo $\x7bbuild.output\x7d"
    ∧ Engine.replaceVariables [] buildStore "echo $\x7bbuild.output\x7d" = "echo OK"
    ∧ ("echo $\x7bbuild.output\x7d" : String) ≠ "echo OK" := by
  refine ⟨by decide, by decide, by decide⟩

/-- C1 (amended): backend-consumed string fields are resolved by the
executor resolver, which substitutes workflow variables only and leaves
everything else, task-output references included, verbatim: when no
workflow-variable pattern occurs in the effective command, the shell
backend receives it unchanged.  The engine resolver, used for condition
text, is the executor resolution followed by the task-output pass over
successful results. -/
theorem C1_amended_resolution (vars : List (String × String)) (task : Task)
    (h : ∀ kv ∈ vars, containsSub ("$\x7b" ++ kv.1 ++ "\x7d").data
           (if task.script ≠ "" then task.script else task.command).data = false) :
    Executor.shellCommand vars task = (if task.script ≠ "" then task.script else task.command)
    ∧ ∀ (store : List (String × TaskResult)) (input : String),
        Engine.replaceVariables vars store input =
          store.foldl (fun acc kv =>
            if kv.2.success then goReplaceAll acc ("$\x7b" ++ kv.1 ++ ".output\x7d") kv.2.output
            else acc) (Executor.replaceVariables vars input) := by
  constructor
  · unfold Executor.shellCommand Executor.replaceVariables
    generalize hc : (if task.script ≠ "" then task.script else task.command) = cmd at h ⊢
    induction vars with
    | nil => rfl
    | cons kv l ih =>
      rw [List.foldl_cons, goReplaceAll_not_contains _ _ _ (h kv (List.mem_cons_self kv l))]
      exact ih fun kv hkv => h kv (List.mem_cons_of_mem _ hkv)
  · intro store input
    rfl

/-- C1 (amended, witness). -/
theorem C1_amended_resolution_witness :
    Executor.shellCommand [("env", "prod")] outputRefTask =
      (if outputRefTask.script ≠ "" then outputRefTask.script else outputRefTask.command)
    ∧ ∀ (store : List (String × TaskResult)) (input : String),
        Engine.replaceVariables [("env", "prod")] store input =
          store.foldl (fun acc kv =>
            if kv.2.success then goReplaceAll acc ("$\x7b" ++ kv.1 ++ ".output\x7d") kv.2.output
            else acc) (Executor.replaceVariables [("env", "prod")] input) :=
  C1_amended_resolution [("env", "prod")] outputRefTask (by decide)

/-- C2: whenever a scheduling round finds no ready task while unexecuted
tasks remain, the run terminates with the deadlock error naming exactly the
unexecuted tasks and returns the results accumulated so far. -/
theorem C2_deadlock (w : Workflow) (bk : Backend) (fuel : Nat) (st : LoopState)
    (h1 : Engine.readyTasks w st = []) (h2 : st.executed.length < w.tasks.length) :
    Engine.runLoop w bk (fuel + 1) st =
      (st.acc, some (RunError.deadlock
        ((w.tasks.filter fun t => ! st.executed.contains t.name).map Task.name))) := by
  unfold Engine.runLoop
  rw [if_pos h2]
  simp only [h1, List.isEmpty_nil, if_true]

/-- C2 (witness): the two-task cyclic workflow, A depends on B and B
depends on A, immediately deadlocks: the run reports both stuck names and
zero recorded results. -/
theorem C2_deadlock_witness :
    Engine.Run cycleWorkflow okBackend = ([], some (RunError.deadlock ["A", "B"])) :=
  C2_deadlock cycleWorkflow okBackend 2 { executed := [], store := [], acc := [] }
    (by decide) (by decide)

theorem retryLoop_result_is_execute (bk : Backend) (task : Task) (delay : Int) :
    ∀ remaining attempt,
      ∃ j, (Engine.retryLoop bk task delay attempt remaining).1 = Executor.Execute bk task j := by
  intro remaining
  induction remaining with
  | zero => intro attempt; exact ⟨attempt, rfl⟩
  | succ n ih =>
    intro attempt
    by_cases h : (Executor.Execute bk task attempt).error.isNone = true
    · exact ⟨attempt, by simp [Engine.retryLoop, h]⟩
    · simpa [Engine.retryLoop, h] using ih (attempt + 1)

theorem Execute_success_eq (bk : Backend) (task : Task) (attempt : Nat) :
    (Executor.Execute bk task attempt).success = (Executor.Execute bk task attempt).error.isNone := rfl

theorem executeTask_success_eq (vars : List (String × String))
    (store : List (String × TaskResult)) (bk : Backend) (task : Task) :
    (Engine.executeTask vars store bk task).success =
      (Engine.executeTask vars store bk task).error.isNone := by
  unfold Engine.executeTask Engine.executeTaskT
  split
  · rfl
  · obtain ⟨j, hj⟩ :=
      retryLoop_result_is_execute bk task (Engine.delayOf task) (Engine.maxAttemptsOf task - 1) 0
    rw [hj]
    exact Execute_success_eq bk task j

theorem error_iff_of_success_eq {r : TaskResult} (h : r.success = r.error.isNone) :
    (r.error ≠ none ↔ r.success = false) := by
  rw [h]; cases r.error <;> simp

/-- C9: every TaskResult produced by the backend dispatcher or by
executeTask, over all outcomes including condition skips and unknown
action kinds, has a non-nil error exactly when its success flag is false. -/
theorem C9_error_iff_failure (bk : Backend) (task : Task) (attempt : Nat)
    (vars : List (String × String)) (store : List (String × TaskResult)) :
    ((Executor.Execute bk task attempt).error ≠ none ↔
       (Executor.Execute bk task attempt).success = false)
    ∧ ((Engine.executeTask vars store bk task).error ≠ none ↔
       (Engine.executeTask vars store bk task).success = false) :=
  ⟨error_iff_of_success_eq (Execute_success_eq bk task attempt),
   error_iff_of_success_eq (executeTask_success_eq vars store bk task)⟩

theorem executeTaskT_of_empty_condition (vars : List (String × String))
    (store : List (String × TaskResult)) (bk : Backend) (task : Task)
    (h : task.condition = "") :
    Engine.executeTaskT vars store bk task =
      Engine.retryLoop bk task (Engine.delayOf task) 0 (Engine.maxAttemptsOf task - 1) := by
  unfold Engine.executeTaskT
  rw [if_neg]
  intro hcon
  exact hcon.1 h

/-- C10: a task whose condition string is empty is never skipped: the
evaluator would map the resolved empty string to false, but the
short-circuit on a non-empty condition means execution proceeds through
the normal retry path. -/
theorem C10_empty_condition (vars : List (String × String))
    (store : List (String × TaskResult)) (bk : Backend) (task : Task)
    (h : task.condition = "") :
    Engine.evaluateCondition vars store task.condition = false
    ∧ Engine.executeTaskT vars store bk task =
        Engine.retryLoop bk task (Engine.delayOf task) 0 (Engine.maxAttemptsOf task - 1) := by
  constructor
  · rw [h]; exact Engine.evaluateCondition_empty vars store
  · exact executeTaskT_of_empty_condition vars store bk task h

/-- C10 (witness). -/
theorem C10_empty_condition_witness :
    Engine.evaluateCondition [] [] defaultTask.condition = false
    ∧ Engine.executeTaskT [] [] okBackend defaultTask =
        Engine.retryLoop okBackend defaultTask (Engine.delayOf defaultTask) 0
          (Engine.maxAttemptsOf defaultTask - 1) :=
  C10_empty_condition [] [] okBackend defaultTask rfl

/-- C8: a task with a non-empty condition that evaluates false returns the
immediate success result with output Skipped due to condition, with no
backend event, and once recorded it satisfies dependency checks for its
dependents. -/
theorem C8_skip (vars : List (String × String)) (store : List (String × TaskResult))
    (bk : Backend) (task : Task) (executed : List String)
    (h1 : task.condition ≠ "")
    (h2 : Engine.evaluateCondition vars store task.condition = false) :
    Engine.executeTaskT vars store bk task =
      ({ taskName := task.name, success := true, error := none
         output := "Skipped due to condition" }, [])
    ∧ ∀ d : Task, d.dependsOn = [task.name] →
        Engine.dependenciesMet
          (storeResult store (Engine.executeTask vars store bk task)) d
          (insertExecuted executed task.name) = true := by
  have hskip : Engine.executeTaskT vars store bk task =
      ({ taskName := task.name, success := true, error := none
         output := "Skipped due to condition" }, []) := by
    unfold Engine.executeTaskT
    rw [if_pos ⟨h1, h2⟩]
  refine ⟨hskip, ?_⟩
  intro d hd
  have hname : (Engine.executeTask vars store bk task).taskName = task.name := by
    unfold Engine.executeTask; rw [hskip]
  have hsucc : (Engine.executeTask vars store bk task).success = true := by
    unfold Engine.executeTask; rw [hskip]
  have hlook : List.lookup task.name (storeResult store (Engine.executeTask vars store bk task)) =
      some (Engine.executeTask vars store bk task) := by
    conv_lhs => rw [← hname]
    exact lookup_storeResult_self _ _
  unfold Engine.dependenciesMet
  rw [hd, List.all_cons, List.all_nil, Bool.and_true, hlook]
  have hmem : task.name ∈ insertExecuted executed task.name :=
    (mem_insertExecuted executed task.name task.name).mpr (Or.inr rfl)
  rw [Bool.and_eq_true]
  exact ⟨List.elem_eq_true_of_mem hmem, hsucc⟩

/-- C8 (witness). -/
theorem C8_skip_witness :
    Engine.executeTaskT [] [] okBackend skippedTask =
      ({ taskName := skippedTask.name, success := true, error := none
         output := "Skipped due to condition" }, [])
    ∧ Engine.dependenciesMet
        (storeResult [] (Engine.executeTask [] [] okBackend skippedTask))
        { defaultTask with dependsOn := ["skipme"] }
        (insertExecuted [] "skipme") = true := by
  have h := C8_skip [] [] okBackend skippedTask [] (by decide) (by decide)
  exact ⟨h.1, h.2 { defaultTask with dependsOn := ["skipme"] } rfl⟩

theorem maxAttemptsOf_pos (task : Task) : 1 ≤ Engine.maxAttemptsOf task := by
  unfold Engine.maxAttemptsOf
  split
  · omega
  · exact Nat.le_refl 1

theorem retryLoop_first_success (bk : Backend) (task : Task) (delay : Int) :
    ∀ (i remaining attempt : Nat), i ≤ remaining →
      (∀ j, j < i → (Executor.Execute bk task (attempt + j)).error ≠ none) →
      (Executor.Execute bk task (attempt + i)).error = none →
      Engine.retryLoop bk task delay attempt remaining =
        (Executor.Execute bk task (attempt + i), eventsFrom delay attempt (i + 1)) := by
  intro i
  induction i with
  | zero =>
    intro remaining attempt _ _ hsucc
    rw [Nat.add_zero] at hsucc ⊢
    cases remaining with
    | zero => simp [Engine.retryLoop, eventsFrom]
    | succ r => simp [Engine.retryLoop, eventsFrom, hsucc]
  | succ k ih =>
    intro remaining attempt hle hfail hsucc
    cases remaining with
    | zero => omega
    | succ r =>
      have h0 : (Executor.Execute bk task attempt).error ≠ none := by
        have h := hfail 0 (Nat.succ_pos k)
        rwa [Nat.add_zero] at h
      have hsucc1 : (Executor.Execute bk task (attempt + 1 + k)).error = none := by
        have he : attempt + 1 + k = attempt + (k + 1) := by omega
        rw [he]; exact hsucc
      have hrec := ih r (attempt + 1) (Nat.le_of_succ_le_succ hle)
        (fun j hj => by
          have he : attempt + 1 + j = attempt + (j + 1) := by omega
          rw [he]; exact hfail (j + 1) (by omega))
        hsucc1
      have he2 : attempt + 1 + k = attempt + (k + 1) := by omega
      rw [he2] at hrec
      simp [Engine.retryLoop, eventsFrom, Option.isNone_iff_eq_none, h0, hrec]

theorem retryLoop_all_fail (bk : Backend) (task : Task) (delay : Int) :
    ∀ (remaining attempt : Nat),
      (∀ j, j ≤ remaining → (Executor.Execute bk task (attempt + j)).error ≠ none) →
      Engine.retryLoop bk task delay attempt remaining =
        (Executor.Execute bk task (attempt + remaining),
         eventsFrom delay attempt (remaining + 1)) := by
  intro remaining
  induction remaining with
  | zero =>
    intro attempt _
    rw [Nat.add_zero]
    simp [Engine.retryLoop, eventsFrom]
  | succ r ih =>
    intro attempt hfail
    have h0 : (Executor.Execute bk task attempt).error ≠ none := by
      have h := hfail 0 (Nat.zero_le _)
      rwa [Nat.add_zero] at h
    have hrec := ih (attempt + 1) (fun j hj => by
      have he : attempt + 1 + j = attempt + (j + 1) := by omega
      rw [he]; exact hfail (j + 1) (by omega))
    have he2 : attempt + 1 + r = attempt + (r + 1) := by omega
    rw [he2] at hrec
    simp [Engine.retryLoop, eventsFrom, Option.isNone_iff_eq_none, h0, hrec]

theorem runLoop_round_err (w : Workflow) (bk : Backend) (fuel : Nat) (st : LoopState)
    (st2 : LoopState) (err : RunError)
    (hlen : st.executed.length < w.tasks.length)
    (hne : Engine.readyTasks w st ≠ [])
    (hseq : Engine.runSequential w.vars bk
        ((Engine.readyTasks w st).filter fun t => ! t.parallel)
        (Engine.runParallelBatch w.vars bk ((Engine.readyTasks w st).filter Task.parallel) st) =
      (st2, some err)) :
    Engine.runLoop w bk (fuel + 1) st = (st2.acc, some err) := by
  have hempty : (Engine.readyTasks w st).isEmpty = false := by
    cases hr : Engine.readyTasks w st with
    | nil => exact absurd hr hne
    | cons a l => rfl
  unfold Engine.runLoop
  rw [if_pos hlen]
  simp only [hempty, Bool.false_eq_true, if_false, hseq]

theorem runLoop_round_ok (w : Workflow) (bk : Backend) (fuel : Nat) (st : LoopState)
    (st2 : LoopState)
    (hlen : st.executed.length < w.tasks.length)
    (hne : Engine.readyTasks w st ≠ [])
    (hseq : Engine.runSequential w.vars bk
        ((Engine.readyTasks w st).filter fun t => ! t.parallel)
        (Engine.runParallelBatch w.vars bk ((Engine.readyTasks w st).filter Task.parallel) st) =
      (st2, none)) :
    Engine.runLoop w bk (fuel + 1) st = Engine.runLoop w bk fuel st2 := by
  have hempty : (Engine.readyTasks w st).isEmpty = false := by
    cases hr : Engine.readyTasks w st with
    | nil => exact absurd hr hne
    | cons a l => rfl
  unfold Engine.runLoop
  rw [if_pos hlen]
  simp only [hempty, Bool.false_eq_true, if_false, hseq]
  rw [Engine.runLoop.eq_def]

/-- C3: a task of the sequential group whose result is unsuccessful and
whose continueOnError flag is false terminates the group at once: its
result is still recorded and the group returns the task-failure error
naming the task; with continueOnError true the group instead proceeds with
the remaining tasks.  The round loop forwards a sequential-group error
directly as the run result together with every result accumulated so far. -/
theorem C3_sequential_failure (vars : List (String × String)) (bk : Backend)
    (task : Task) (rest : List Task) (st : LoopState) :
    ((Engine.executeTask vars st.store bk task).success = false →
      task.continueOnError = false →
      Engine.runSequential vars bk (task :: rest) st =
        (recordResult st (Engine.executeTask vars st.store bk task),
         some (RunError.taskFailed task.name (Engine.executeTask vars st.store bk task).error)))
    ∧ ((Engine.executeTask vars st.store bk task).success = false →
      task.continueOnError = true →
      Engine.runSequential vars bk (task :: rest) st =
        Engine.runSequential vars bk rest (recordResult st (Engine.executeTask vars st.store bk task)))
    ∧ (∀ (w : Workflow) (fuel : Nat) (st2 : LoopState) (err : RunError),
        st.executed.length < w.tasks.length →
        Engine.readyTasks w st ≠ [] →
        Engine.runSequential w.vars bk
            ((Engine.readyTasks w st).filter fun t => ! t.parallel)
            (Engine.runParallelBatch w.vars bk ((Engine.readyTasks w st).filter Task.parallel) st) =
          (st2, some err) →
        Engine.runLoop w bk (fuel + 1) st = (st2.acc, some err)) := by
  refine ⟨?_, ?_, ?_⟩
  · intro h1 h2
    simp only [Engine.runSequential]
    rw [if_pos ⟨h1, h2⟩]
  · intro h1 h2
    simp only [Engine.runSequential]
    rw [if_neg]
    intro hcon
    rw [h2] at hcon
    exact absurd hcon.2 (by simp)
  · intro w fuel st2 err hlen hne hseq
    exact runLoop_round_err w bk fuel st st2 err hlen hne hseq

/-- C3 (witness): with an always-failing backend, the two-task sequential
group stops after its first task and reports that task's failure, while a
continue-on-error task lets the group proceed to the rest. -/
theorem C3_sequential_failure_witness :
    (Engine.runSequential [] failBackend pairWorkflow.tasks
        { executed := [], store := [], acc := [] } =
      (recordResult { executed := [], store := [], acc := [] }
         (Engine.executeTask [] [] failBackend { defaultTask with name := "T1", type := "shell" }),
       some (RunError.taskFailed "T1"
         (Engine.executeTask [] [] failBackend { defaultTask with name := "T1", type := "shell" }).error)))
    ∧ (Engine.runSequential [] failBackend (contTask :: [skippedTask])
        { executed := [], store := [], acc := [] } =
      Engine.runSequential [] failBackend [skippedTask]
        (recordResult { executed := [], store := [], acc := [] }
          (Engine.executeTask [] [] failBackend contTask))) :=
  ⟨(C3_sequential_failure [] failBackend { defaultTask with name := "T1", type := "shell" }
      [{ defaultTask with name := "T2", type := "shell" }]
      { executed := [], store := [], acc := [] }).1 (by decide) rfl,
   (C3_sequential_failure [] failBackend contTask [skippedTask]
      { executed := [], store := [], acc := [] }).2.1 (by decide) rfl⟩

/-- C6: executing an unconditional task loops up to the effective attempt
bound (the retry maximum when positive, else the default 1): the loop stops
at the first successful attempt and returns that attempt's result, sleeps
the configured delay before every attempt after the first (the event trace
is exactly `eventsFrom`), and when every attempt fails it returns the last
attempt's result. -/
theorem C6_retry (vars : List (String × String)) (store : List (String × TaskResult))
    (bk : Backend) (task : Task) (h : task.condition = "") :
    (∀ i, i < Engine.maxAttemptsOf task →
      (∀ j, j < i → (Executor.Execute bk task j).error ≠ none) →
      (Executor.Execute bk task i).error = none →
      Engine.executeTaskT vars store bk task =
        (Executor.Execute bk task i, eventsFrom (Engine.delayOf task) 0 (i + 1)))
    ∧ ((∀ j, j < Engine.maxAttemptsOf task → (Executor.Execute bk task j).error ≠ none) →
      Engine.executeTaskT vars store bk task =
        (Executor.Execute bk task (Engine.maxAttemptsOf task - 1),
         eventsFrom (Engine.delayOf task) 0 (Engine.maxAttemptsOf task))) := by
  have hM := maxAttemptsOf_pos task
  rw [executeTaskT_of_empty_condition vars store bk task h] at *
  constructor
  · intro i hi hfail hsucc
    have hres := retryLoop_first_success bk task (Engine.delayOf task) i
      (Engine.maxAttemptsOf task - 1) 0 (by omega)
      (fun j hj => by rw [Nat.zero_add]; exact hfail j hj)
      (by rw [Nat.zero_add]; exact hsucc)
    rwa [Nat.zero_add] at hres
  · intro hfail
    have hres := retryLoop_all_fail bk task (Engine.delayOf task)
      (Engine.maxAttemptsOf task - 1) 0
      (fun j hj => by rw [Nat.zero_add]; exact hfail j (by omega))
    rw [Nat.zero_add] at hres
    have he : Engine.maxAttemptsOf task - 1 + 1 = Engine.maxAttemptsOf task := by omega
    rwa [he] at hres

/-- C6 (witness): with a three-attempt retry policy and a backend failing
on the first two attempts, the returned result is the successful third
attempt, whose output is the third attempt's output. -/
theorem C6_retry_witness :
    Engine.executeTaskT [] [] thirdTryBackend retryTask =
      (Executor.Execute thirdTryBackend retryTask 2, eventsFrom 5 0 3)
    ∧ (Executor.Execute thirdTryBackend retryTask 2).success = true
    ∧ (Executor.Execute thirdTryBackend retryTask 2).output = "third" := by
  refine ⟨(C6_retry [] [] thirdTryBackend retryTask rfl).1 2 (by decide)
    (fun j hj => by interval_cases j <;> decide) (by decide), by decide, by decide⟩

theorem executeTask_taskName (vars : List (String × String))
    (store : List (String × TaskResult)) (bk : Backend) (task : Task) :
    (Engine.executeTask vars store bk task).taskName = task.name := by
  unfold Engine.executeTask Engine.executeTaskT
  split
  · rfl
  · obtain ⟨j, hj⟩ :=
      retryLoop_result_is_execute bk task (Engine.delayOf task) (Engine.maxAttemptsOf task - 1) 0
    rw [hj]
    rfl

theorem foldl_recordResult_acc (results : List TaskResult) :
    ∀ st : LoopState, (results.foldl recordResult st).acc = st.acc ++ results := by
  induction results with
  | nil => intro st; simp
  | cons r rs ih =>
    intro st
    rw [List.foldl_cons, ih]
    simp [recordResult]

theorem foldl_recordResult_executed (results : List TaskResult) :
    ∀ (st : LoopState) (n : String),
      n ∈ (results.foldl recordResult st).executed ↔
        n ∈ st.executed ∨ n ∈ results.map TaskResult.taskName := by
  induction results with
  | nil => intro st n; simp
  | cons r rs ih =>
    intro st n
    rw [List.foldl_cons, ih]
    simp only [recordResult, mem_insertExecuted, List.map_cons, List.mem_cons]
    tauto

theorem runParallelBatch_acc (vars : List (String × String)) (bk : Backend)
    (ts : List Task) (st : LoopState) :
    (Engine.runParallelBatch vars bk ts st).acc =
      st.acc ++ ts.map (Engine.executeTask vars st.store bk) :=
  foldl_recordResult_acc _ st

theorem runParallelBatch_acc_names (vars : List (String × String)) (bk : Backend)
    (ts : List Task) (st : LoopState) :
    (Engine.runParallelBatch vars bk ts st).acc.map TaskResult.taskName =
      st.acc.map TaskResult.taskName ++ ts.map Task.name := by
  rw [runParallelBatch_acc, List.map_append, List.map_map]
  congr 1
  apply List.map_congr_left
  intro t _
  exact executeTask_taskName vars st.store bk t

theorem runParallelBatch_executed (vars : List (String × String)) (bk : Backend)
    (ts : List Task) (st : LoopState) (n : String) :
    n ∈ (Engine.runParallelBatch vars bk ts st).executed ↔
      n ∈ st.executed ∨ n ∈ ts.map Task.name := by
  unfold Engine.runParallelBatch
  rw [foldl_recordResult_executed, List.map_map]
  constructor
  · rintro (h | h)
    · exact Or.inl h
    · refine Or.inr ?_
      obtain ⟨t, ht, hn⟩ := List.mem_map.mp h
      exact List.mem_map.mpr ⟨t, ht, by
        rw [← hn]; exact (executeTask_taskName vars st.store bk t).symm⟩
  · rintro (h | h)
    · exact Or.inl h
    · refine Or.inr ?_
      obtain ⟨t, ht, hn⟩ := List.mem_map.mp h
      refine List.mem_map.mpr ⟨t, ht, ?_⟩
      rw [Function.comp_apply, executeTask_taskName, hn]

theorem runSequential_ok (vars : List (String × String)) (bk : Backend) :
    ∀ (ts : List Task) (st : LoopState),
      (∀ t ∈ ts, ∀ store, (Engine.executeTask vars store bk t).success = true ∨
        t.continueOnError = true) →
      (Engine.runSequential vars bk ts st).2 = none
      ∧ (Engine.runSequential vars bk ts st).1.acc.map TaskResult.taskName =
          st.acc.map TaskResult.taskName ++ ts.map Task.name
      ∧ ∀ n, n ∈ (Engine.runSequential vars bk ts st).1.executed ↔
          n ∈ st.executed ∨ n ∈ ts.map Task.name := by
  intro ts
  induction ts with
  | nil => intro st _; refine ⟨rfl, by simp [Engine.runSequential], by simp [Engine.runSequential]⟩
  | cons t rest ih =>
    intro st h
    have hnostop : ¬ ((Engine.executeTask vars st.store bk t).success = false ∧
        t.continueOnError = false) := by
      rcases h t (List.mem_cons_self t rest) st.store with hs | hc
      · intro hcon; rw [hs] at hcon; exact absurd hcon.1 (by simp)
      · intro hcon; rw [hc] at hcon; exact absurd hcon.2 (by simp)
    have hstep : Engine.runSequential vars bk (t :: rest) st =
        Engine.runSequential vars bk rest
          (recordResult st (Engine.executeTask vars st.store bk t)) := by
      simp only [Engine.runSequential]
      rw [if_neg hnostop]
    have hrest := ih (recordResult st (Engine.executeTask vars st.store bk t))
      (fun u hu store => h u (List.mem_cons_of_mem t hu) store)
    refine ⟨by rw [hstep]; exact hrest.1, ?_, ?_⟩
    · rw [hstep, hrest.2.1]
      simp [recordResult, executeTask_taskName]
    · intro n
      rw [hstep, hrest.2.2 n]
      simp only [recordResult, mem_insertExecuted, executeTask_taskName,
        List.map_cons, List.mem_cons]
      tauto

theorem runLoop_exit_acc (w : Workflow) (bk : Backend) (fuel : Nat) (st : LoopState)
    (h : ∀ t ∈ w.tasks, t.name ∈ st.executed) :
    (Engine.runLoop w bk (fuel + 1) st).1 = st.acc := by
  unfold Engine.runLoop
  by_cases hlen : st.executed.length < w.tasks.length
  · rw [if_pos hlen]
    have hready : Engine.readyTasks w st = [] := by
      unfold Engine.readyTasks
      refine List.filter_eq_nil_iff.mpr ?_
      intro t ht
      have hc : st.executed.contains t.name = true := List.elem_eq_true_of_mem (h t ht)
      simp only [hc, Bool.not_true, Bool.false_and]
      simp
    simp [hready]
  · rw [if_neg hlen]

/-- C7 (counterexample): in a two-task workflow with no dependency edges,
an always-failing backend makes the first sequential task abort the run, so
only one task executes and only one result is returned, not one per task. -/
theorem C7_counterexample :
    pairWorkflow.tasks.length = 2
    ∧ (Engine.Run pairWorkflow failBackend).1.map TaskResult.taskName = ["T1"]
    ∧ (Engine.Run pairWorkflow failBackend).1.length = 1 := by
  refine ⟨by decide, by decide, by decide⟩

/-- C7 (amended): in a workflow with no dependency edges, provided no task
execution can both fail and lack continueOnError, every task executes
exactly once regardless of declared order: the returned result names are a
permutation of the task names, so the result count equals the task count. -/
theorem C7_all_execute (w : Workflow) (bk : Backend)
    (hdeps : ∀ t ∈ w.tasks, t.dependsOn = ([] : List String))
    (hok : ∀ t ∈ w.tasks, ∀ store,
      (Engine.executeTask w.vars store bk t).success = true ∨ t.continueOnError = true) :
    ((Engine.Run w bk).1.map TaskResult.taskName).Perm (w.tasks.map Task.name)
    ∧ (Engine.Run w bk).1.length = w.tasks.length := by
  have hmain : ((Engine.Run w bk).1.map TaskResult.taskName).Perm (w.tasks.map Task.name) := by
    rcases hn : w.tasks with _ | ⟨t0, ts0⟩
    · have : Engine.Run w bk = ([], none) := by
        unfold Engine.Run Engine.runLoop
        rw [if_neg (by rw [hn]; simp)]
      rw [this]
      simp
    · rw [← hn]
      have hlen1 : 1 ≤ w.tasks.length := by rw [hn]; simp
      have hready : Engine.readyTasks w { executed := [], store := [], acc := [] } = w.tasks := by
        unfold Engine.readyTasks
        refine List.filter_eq_self.mpr ?_
        intro t ht
        have hd := hdeps t ht
        simp [Engine.dependenciesMet, hd, List.contains]
      set st0 : LoopState := { executed := [], store := [], acc := [] } with hst0
      set par := w.tasks.filter Task.parallel with hpar
      set seq := w.tasks.filter (fun t => ! t.parallel) with hseq
      set st1 := Engine.runParallelBatch w.vars bk par st0 with hst1
      have hseqok := runSequential_ok w.vars bk seq st1
        (fun t ht store => hok t (List.mem_of_mem_filter ht) store)
      rcases hrs : Engine.runSequential w.vars bk seq st1 with ⟨st2, err⟩
      rw [hrs] at hseqok
      have herr : err = none := hseqok.1
      subst herr
      have hround : Engine.runLoop w bk (w.tasks.length + 1) st0 =
          Engine.runLoop w bk w.tasks.length st2 := by
        apply runLoop_round_ok w bk w.tasks.length st0 st2
        · simpa [hst0] using hlen1
        · rw [hready, hn]; simp
        · rw [hready, ← hpar, ← hseq, ← hst1]; exact hrs
      have hacc2 : st2.acc.map TaskResult.taskName =
          par.map Task.name ++ seq.map Task.name := by
        have h1 := hseqok.2.1
        rw [runParallelBatch_acc_names] at h1
        simpa [hst0] using h1
      have hex2 : ∀ t ∈ w.tasks, t.name ∈ st2.executed := by
        intro t ht
        have := (hseqok.2.2 t.name).mpr
        apply this
        by_cases hp : t.parallel
        · refine Or.inl ((runParallelBatch_executed w.vars bk par st0 t.name).mpr ?_)
          exact Or.inr (List.mem_map.mpr ⟨t, List.mem_filter.mpr ⟨ht, hp⟩, rfl⟩)
        · refine Or.inr (List.mem_map.mpr ⟨t, List.mem_filter.mpr ⟨ht, by simp [hp]⟩, rfl⟩)
      obtain ⟨m, hm⟩ : ∃ m, w.tasks.length = m + 1 := ⟨w.tasks.length - 1, by omega⟩
      have hexit : (Engine.runLoop w bk w.tasks.length st2).1 = st2.acc := by
        rw [hm]
        exact runLoop_exit_acc w bk m st2 hex2
      have hrun : (Engine.Run w bk).1 = st2.acc := by
        unfold Engine.Run
        rw [hround, hexit]
      rw [hrun, hacc2]
      have hperm := List.filter_append_perm Task.parallel w.tasks
      have := hperm.map Task.name
      rw [List.map_append] at this
      exact this
  refine ⟨hmain, ?_⟩
  have h1 := hmain.length_eq
  rw [List.length_map, List.length_map] at h1
  exact h1

/-- C7 (amended, witness): a two-task dependency-free workflow with an
always-succeeding backend returns exactly one result per task. -/
theorem C7_all_execute_witness :
    ((Engine.Run pairWorkflow okBackend).1.map TaskResult.taskName).Perm
      (pairWorkflow.tasks.map Task.name)
    ∧ (Engine.Run pairWorkflow okBackend).1.length = pairWorkflow.tasks.length := by
  apply C7_all_execute pairWorkflow okBackend
  · intro t ht
    fin_cases ht <;> rfl
  · intro t ht store
    fin_cases ht <;>
      exact Or.inl (by
        rw [Engine.executeTask, executeTaskT_of_empty_condition _ _ _ _ rfl]
        rfl)

theorem append_singleton_eq_cases {α : Type} {acc l1 l2 : List α} {r b : α}
    (h : acc ++ [b] = l1 ++ r :: l2) :
    (∃ l2x, acc = l1 ++ r :: l2x ∧ l2 = l2x ++ [b]) ∨ (l1 = acc ∧ r = b ∧ l2 = []) := by
  rcases List.eq_nil_or_concat' l2 with rfl | ⟨l2x, a, rfl⟩
  · right
    have hinj := List.append_inj' h (by simp)
    have hr : r = b := by
      have := hinj.2
      simpa using this.symm
    exact ⟨hinj.1.symm, hr, rfl⟩
  · left
    have h2 : acc ++ [b] = (l1 ++ r :: l2x) ++ [a] := by
      rw [h]
      simp
    have hinj := List.append_inj' h2 (by simp)
    have ha : b = a := by simpa using hinj.2
    exact ⟨l2x, hinj.1, by rw [ha]⟩

theorem Inv_init (w : Workflow) : Inv w { executed := [], store := [], acc := [] } := by
  constructor
  · intro n
    simp [List.lookup]
  · intro n r h
    simp [List.lookup] at h
  · simp
  · intro r h
    simp at h
  · intro l1 r l2 h
    exact absurd h (by simp)

theorem depEvidence_of_met (w : Workflow) (st : LoopState) (hInv : Inv w st) (t : Task)
    (hmet : Engine.dependenciesMet st.store t st.executed = true) :
    ∀ dep ∈ t.dependsOn, ∃ ra ∈ st.acc, ra.taskName = dep ∧ ra.success = true := by
  intro dep hdep
  have hall := List.all_eq_true.mp hmet dep hdep
  rw [Bool.and_eq_true] at hall
  have hmem : dep ∈ st.executed := List.mem_of_elem_eq_true hall.1
  obtain ⟨r, hr⟩ := (hInv.exec_store dep).mp hmem
  have hsucc : r.success = true := by
    have h2 := hall.2
    rw [hr] at h2
    exact h2
  obtain ⟨hacc, hname⟩ := hInv.store_acc dep r hr
  exact ⟨r, hacc, hname, hsucc⟩

theorem Inv_record (w : Workflow) (hw : (w.tasks.map Task.name).Nodup)
    (st : LoopState) (r : TaskResult) (t : Task)
    (hInv : Inv w st) (ht : t ∈ w.tasks) (hname : r.taskName = t.name)
    (hnotex : r.taskName ∉ st.executed)
    (hdeps : ∀ dep ∈ t.dependsOn, ∃ ra ∈ st.acc, ra.taskName = dep ∧ ra.success = true) :
    Inv w (recordResult st r) := by
  have hnotacc : r.taskName ∉ st.acc.map TaskResult.taskName := by
    intro hmem
    obtain ⟨ra, hra, hraname⟩ := List.mem_map.mp hmem
    exact hnotex (hraname ▸ hInv.acc_exec ra hra)
  constructor
  · intro n
    simp only [recordResult, mem_insertExecuted]
    by_cases hn : n = r.taskName
    · subst hn
      constructor
      · intro _
        exact ⟨r, lookup_storeResult_self st.store r⟩
      · intro _
        exact Or.inr rfl
    · rw [lookup_storeResult_ne st.store r n hn]
      constructor
      · rintro (hm | hm)
        · exact (hInv.exec_store n).mp hm
        · exact absurd hm hn
      · intro hm
        exact Or.inl ((hInv.exec_store n).mpr hm)
  · intro n rx hx
    simp only [recordResult] at hx ⊢
    by_cases hn : n = r.taskName
    · subst hn
      rw [lookup_storeResult_self st.store r] at hx
      cases hx
      exact ⟨List.mem_append_right _ (List.mem_singleton_self r), rfl⟩
    · rw [lookup_storeResult_ne st.store r n hn] at hx
      obtain ⟨hacc, hnm⟩ := hInv.store_acc n rx hx
      exact ⟨List.mem_append_left _ hacc, hnm⟩
  · simp only [recordResult, List.map_append, List.map_cons, List.map_nil]
    rw [List.nodup_append]
    refine ⟨hInv.nodupNames, List.nodup_singleton _, ?_⟩
    intro x hx hx2
    simp at hx2
    subst hx2
    exact hnotacc hx
  · intro rx hx
    simp only [recordResult, List.mem_append, List.mem_singleton] at hx
    simp only [recordResult, mem_insertExecuted]
    rcases hx with hx | rfl
    · exact Or.inl (hInv.acc_exec rx hx)
    · exact Or.inr rfl
  · intro l1 rx l2 hsplit tx htx htname dep hdep
    simp only [recordResult] at hsplit
    rcases append_singleton_eq_cases hsplit with ⟨l2x, hacc, _⟩ | ⟨hl1, hrx, _⟩
    · exact hInv.dep_before l1 rx l2x hacc tx htx htname dep hdep
    · subst hl1
      have htx_eq : tx = t := by
        apply List.inj_on_of_nodup_map hw htx ht
        rw [htname, hrx, hname]
      subst htx_eq
      exact hdeps dep hdep

theorem Inv_foldl_record (w : Workflow) (hw : (w.tasks.map Task.name).Nodup)
    (acc0 : List TaskResult) :
    ∀ (results : List TaskResult) (st : LoopState),
      Inv w st →
      (∀ ra ∈ acc0, ra ∈ st.acc) →
      (results.map TaskResult.taskName).Nodup →
      (∀ r ∈ results, r.taskName ∉ st.executed) →
      (∀ r ∈ results, ∃ t ∈ w.tasks, r.taskName = t.name ∧
        ∀ dep ∈ t.dependsOn, ∃ ra ∈ acc0, ra.taskName = dep ∧ ra.success = true) →
      Inv w (results.foldl recordResult st) := by
  intro results
  induction results with
  | nil => intro st h _ _ _ _; exact h
  | cons r rs ih =>
    intro st hInv hacc0 hnodup hnotex hjust
    rw [List.foldl_cons]
    obtain ⟨t, ht, hname, hdeps⟩ := hjust r (List.mem_cons_self r rs)
    have hInv1 : Inv w (recordResult st r) :=
      Inv_record w hw st r t hInv ht hname (hnotex r (List.mem_cons_self r rs))
        (fun dep hdep => by
          obtain ⟨ra, hra, h1, h2⟩ := hdeps dep hdep
          exact ⟨ra, hacc0 ra hra, h1, h2⟩)
    have hpair : (∀ x ∈ rs, ¬ x.taskName = r.taskName) ∧
        (rs.map TaskResult.taskName).Nodup := by simpa using hnodup
    apply ih (recordResult st r) hInv1
    · intro ra hra
      simp only [recordResult, List.mem_append]
      exact Or.inl (hacc0 ra hra)
    · exact hpair.2
    · intro rx hrx hmem2
      rcases (mem_insertExecuted st.executed r.taskName rx.taskName).mp hmem2 with hm | hm
      · exact hnotex rx (List.mem_cons_of_mem r hrx) hm
      · exact hpair.1 rx hrx hm
    · intro rx hrx
      exact hjust rx (List.mem_cons_of_mem r hrx)

theorem Inv_runSequential (w : Workflow) (hw : (w.tasks.map Task.name).Nodup)
    (vars : List (String × String)) (bk : Backend) (acc0 : List TaskResult) :
    ∀ (ts : List Task) (st : LoopState),
      Inv w st →
      (∀ ra ∈ acc0, ra ∈ st.acc) →
      ((ts.map Task.name).Nodup) →
      (∀ t ∈ ts, t.name ∉ st.executed) →
      (∀ t ∈ ts, t ∈ w.tasks) →
      (∀ t ∈ ts, ∀ dep ∈ t.dependsOn, ∃ ra ∈ acc0, ra.taskName = dep ∧ ra.success = true) →
      Inv w (Engine.runSequential vars bk ts st).1 := by
  intro ts
  induction ts with
  | nil => intro st h _ _ _ _ _; exact h
  | cons t rest ih =>
    intro st hInv hacc0 hnodup hnotex hmem hjust
    have hInv1 : Inv w (recordResult st (Engine.executeTask vars st.store bk t)) :=
      Inv_record w hw st _ t hInv (hmem t (List.mem_cons_self t rest))
        (executeTask_taskName vars st.store bk t)
        (by rw [executeTask_taskName]; exact hnotex t (List.mem_cons_self t rest))
        (fun dep hdep => by
          obtain ⟨ra, hra, h1, h2⟩ := hjust t (List.mem_cons_self t rest) dep hdep
          exact ⟨ra, hacc0 ra hra, h1, h2⟩)
    have hpair : (∀ x ∈ rest, ¬ x.name = t.name) ∧
        (rest.map Task.name).Nodup := by simpa using hnodup
    simp only [Engine.runSequential]
    split
    · exact hInv1
    · apply ih (recordResult st (Engine.executeTask vars st.store bk t)) hInv1
      · intro ra hra
        simp only [recordResult, List.mem_append]
        exact Or.inl (hacc0 ra hra)
      · exact hpair.2
      · intro u hu hmem2
        rcases (mem_insertExecuted st.executed _ u.name).mp hmem2 with hm | hm
        · exact hnotex u (List.mem_cons_of_mem t hu) hm
        · rw [executeTask_taskName] at hm
          exact hpair.1 u hu hm
      · intro u hu
        exact hmem u (List.mem_cons_of_mem t hu)
      · intro u hu
        exact hjust u (List.mem_cons_of_mem t hu)

theorem readyTasks_facts (w : Workflow) (st : LoopState) :
    ∀ t ∈ Engine.readyTasks w st,
      t ∈ w.tasks ∧ t.name ∉ st.executed ∧
        Engine.dependenciesMet st.store t st.executed = true := by
  intro t ht
  unfold Engine.readyTasks at ht
  have hmem := List.mem_of_mem_filter ht
  have hp := List.of_mem_filter ht
  rw [Bool.and_eq_true] at hp
  refine ⟨hmem, ?_, hp.2⟩
  intro hmemex
  have hc : st.executed.contains t.name = true := List.elem_eq_true_of_mem hmemex
  have hp1 := hp.1
  rw [hc] at hp1
  exact absurd hp1 (by simp)

theorem readyTasks_names_nodup (w : Workflow) (st : LoopState)
    (hw : (w.tasks.map Task.name).Nodup) :
    ((Engine.readyTasks w st).map Task.name).Nodup := by
  unfold Engine.readyTasks
  exact hw.sublist ((List.filter_sublist w.tasks).map Task.name)

theorem Inv_runLoop (w : Workflow) (hw : (w.tasks.map Task.name).Nodup) (bk : Backend) :
    ∀ (fuel : Nat) (st : LoopState), Inv w st →
      ∃ stf : LoopState, Inv w stf ∧ (Engine.runLoop w bk fuel st).1 = stf.acc := by
  intro fuel
  induction fuel with
  | zero => intro st h; exact ⟨st, h, rfl⟩
  | succ n ih =>
    intro st hInv
    by_cases hlen : st.executed.length < w.tasks.length
    case neg =>
      refine ⟨st, hInv, ?_⟩
      unfold Engine.runLoop
      rw [if_neg hlen]
    case pos =>
    rcases hready : Engine.readyTasks w st with _ | ⟨t0, ts0⟩
    · refine ⟨st, hInv, ?_⟩
      unfold Engine.runLoop
      rw [if_pos hlen]
      simp [hready]
    · have hRne : Engine.readyTasks w st ≠ [] := by rw [hready]; simp
      set R := Engine.readyTasks w st with hR
      set par := R.filter Task.parallel with hpar
      set seq := R.filter (fun t => ! t.parallel) with hseqdef
      set st1 := Engine.runParallelBatch w.vars bk par st with hst1
      have hfacts := readyTasks_facts w st
      have hRnodup : (R.map Task.name).Nodup := readyTasks_names_nodup w st hw
      have hmapnames : (par.map (Engine.executeTask w.vars st.store bk)).map TaskResult.taskName =
          par.map Task.name := by
        rw [List.map_map]
        apply List.map_congr_left
        intro t _
        exact executeTask_taskName w.vars st.store bk t
      have hparnodup : (par.map Task.name).Nodup :=
        hRnodup.sublist ((List.filter_sublist R).map Task.name)
      have hseqnodup : (seq.map Task.name).Nodup :=
        hRnodup.sublist ((List.filter_sublist R).map Task.name)
      have hInv1 : Inv w st1 := by
        rw [hst1]
        unfold Engine.runParallelBatch
        apply Inv_foldl_record w hw st.acc _ st hInv
        · intro ra hra
          exact hra
        · rw [hmapnames]
          exact hparnodup
        · intro r hr
          obtain ⟨t, ht, rfl⟩ := List.mem_map.mp hr
          rw [executeTask_taskName]
          exact (hfacts t (List.mem_of_mem_filter ht)).2.1
        · intro r hr
          obtain ⟨t, ht, rfl⟩ := List.mem_map.mp hr
          have hf := hfacts t (List.mem_of_mem_filter ht)
          exact ⟨t, hf.1, executeTask_taskName w.vars st.store bk t,
            depEvidence_of_met w st hInv t hf.2.2⟩
      have hacc1 : ∀ ra ∈ st.acc, ra ∈ st1.acc := by
        intro ra hra
        rw [hst1, runParallelBatch_acc]
        exact List.mem_append_left _ hra
      have hnotex1 : ∀ t ∈ seq, t.name ∉ st1.executed := by
        intro t ht hmem1
        have hf := hfacts t (List.mem_of_mem_filter ht)
        rcases (runParallelBatch_executed w.vars bk par st t.name).mp hmem1 with hm | hm
        · exact hf.2.1 hm
        · obtain ⟨u, hu, hun⟩ := List.mem_map.mp hm
          have hueq : u = t := List.inj_on_of_nodup_map hRnodup
            (List.mem_of_mem_filter hu) (List.mem_of_mem_filter ht) hun
          have hup := List.of_mem_filter
            (show u ∈ R.filter Task.parallel from by rw [hpar] at hu; exact hu)
          have htp := List.of_mem_filter
            (show t ∈ R.filter (fun x => ! x.parallel) from by rw [hseqdef] at ht; exact ht)
          rw [hueq] at hup
          simp [hup] at htp
      rcases hrs : Engine.runSequential w.vars bk seq st1 with ⟨st2, errOpt⟩
      have hInv2 : Inv w st2 := by
        have h := Inv_runSequential w hw w.vars bk st.acc seq st1 hInv1 hacc1 hseqnodup
          hnotex1
          (fun t ht => (hfacts t (List.mem_of_mem_filter ht)).1)
          (fun t ht dep hdep =>
            depEvidence_of_met w st hInv t (hfacts t (List.mem_of_mem_filter ht)).2.2 dep hdep)
        rw [hrs] at h
        exact h
      cases errOpt with
      | some err =>
        refine ⟨st2, hInv2, ?_⟩
        rw [runLoop_round_err w bk n st st2 err hlen hRne hrs]
      | none =>
        obtain ⟨stf, hif, hfacc⟩ := ih st2 hInv2
        refine ⟨stf, hif, ?_⟩
        rw [runLoop_round_ok w bk n st st2 hlen hRne hrs]
        exact hfacc

/-- C5: with distinct task names, whenever B depends on A and a result for
B appears in the run output, a successful result for A appears strictly
before it; together with the distinctness of recorded result names this
gives that B never begins before A's result is recorded and that B never
executes when A's recorded result is a failure. -/
theorem C5_dependency_order (w : Workflow) (bk : Backend) (A B : Task)
    (hw : (w.tasks.map Task.name).Nodup)
    (hA : A ∈ w.tasks) (hB : B ∈ w.tasks) (hdep : A.name ∈ B.dependsOn)
    (l1 l2 : List TaskResult) (r : TaskResult)
    (hsplit : (Engine.Run w bk).1 = l1 ++ r :: l2) (hrB : r.taskName = B.name) :
    ((Engine.Run w bk).1.map TaskResult.taskName).Nodup
    ∧ ∃ ra ∈ l1, ra.taskName = A.name ∧ ra.success = true := by
  obtain ⟨stf, hInv, hacc⟩ := Inv_runLoop w hw bk (w.tasks.length + 1)
    { executed := [], store := [], acc := [] } (Inv_init w)
  have hrun : (Engine.Run w bk).1 = stf.acc := hacc
  constructor
  · rw [hrun]
    exact hInv.nodupNames
  · exact hInv.dep_before l1 r l2 (by rw [← hrun]; exact hsplit) B hB hrB.symm A.name hdep

/-- C5 (witness): in the two-task chain where B depends on A (declared
B first), A's successful result precedes B's in the run output and the
result names are distinct. -/
theorem C5_dependency_order_witness :
    ((Engine.Run chainWorkflow okBackend).1.map TaskResult.taskName).Nodup
    ∧ ∃ ra ∈ [({ taskName := "A", success := true, error := none, output := "A-out" } : TaskResult)],
        ra.taskName = chainTaskA.name ∧ ra.success = true :=
  C5_dependency_order chainWorkflow okBackend chainTaskA chainTaskB (by decide) (by decide)
    (by decide) (by decide)
    [{ taskName := "A", success := true, error := none, output := "A-out" }] []
    { taskName := "B", success := true, error := none, output := "B-out" }
    (by decide) (by decide)

end TaskFlow
